import Mathlib

/-!
Shallow embedding of tzhttpd's HttpHandler (src/HttpHandler.h): URI path
normalization, the handler table, and the switch / update (hot-swap)
operations, together with proofs about them.

Conventions of the embedding:
* C++ strings are Lean `String`s / `List Char`.
* Integer return codes of the C++ methods are `Int` (0 = Ok, -1, -2 as in the
  source).
* A C++ execution that performs undefined behavior (an out-of-bounds read in
  `pure_uri_path`, or the null-pointer dereference in
  `do_update_http_handler`) is modelled as `none` / `.crash`.
* `boost::shared_ptr::use_count()` polls of the located handler object during
  the drain loop of `do_update_http_handler` are modelled by a sequence
  `counts : Nat → Nat` giving the value observed by the i-th call of
  `use_count()`.
-/

namespace tzhttpd

/-- The character class of C's isspace in the default locale, used by
boost::algorithm::trim_copy: space, \t, \n, \v, \f, \r. -/
def isSpaceChar (c : Char) : Bool :=
  c = ' ' || c = '\t' || c = '\n' || c = '\x0b' || c = '\x0c' || c = '\r'

/-- boost::algorithm::trim_copy on a character list: drop isspace characters
from the front and from the back. -/
def trimCopy (l : List Char) : List Char :=
  ((l.dropWhile isSpaceChar).reverse.dropWhile isSpaceChar).reverse

/-- The trailing-slash-stripping loop of HttpHandler::pure_uri_path
(src/HttpHandler.h lines 118-119), acting on the REVERSED character list, so
that the trailing characters inspected by `uri[uri.size()-1]` come first.
`none` models the out-of-bounds read `uri[uri.size()-1]` performed by the loop
condition when the string is empty (the index underflows). The C++ loop is
  while (uri[uri.size()-1] == '/' && uri.size() > 1) uri = uri.substr(0, uri.size()-1);
so a single remaining character is kept even when it is '/'. -/
def stripRev : List Char → Option (List Char)
  | [] => none
  | [c] => some [c]
  | c :: c2 :: rest => if c = '/' then stripRev (c2 :: rest) else some (c :: c2 :: rest)

/-- HttpHandler::pure_uri_path (src/HttpHandler.h lines 116-122): lowercase,
trim surrounding whitespace, then strip trailing '/' characters while more
than one character remains. `none` models the out-of-bounds read on a string
that is empty after trimming. -/
def pure_uri_path (uri : String) : Option String :=
  let t := trimCopy (uri.data.map Char.toLower)
  (stripRev t.reverse).map (fun r => String.mk r.reverse)

/-- HttpHandlerObject<T> (src/HttpHandler.h lines 37-52): runtime state of one
registered handler. Atomics are modelled by their plain values. -/
structure HttpHandlerObject (T : Type) where
  built_in_ : Bool
  success_cnt_ : Int
  fail_cnt_ : Int
  working_ : Bool
  handler_ : T
deriving DecidableEq

/-- The HttpHandlerObject constructor (src/HttpHandler.h lines 48-51):
built_in_(built_in), success_cnt_(0), fail_cnt_(0), working_(true). -/
def mkHttpHandlerObject {T : Type} (t : T) (built_in : Bool) : HttpHandlerObject T :=
  { built_in_ := built_in, success_cnt_ := 0, fail_cnt_ := 0, working_ := true, handler_ := t }

/-- One element of the handler table vector: std::pair<UriRegex, Ptr>.
`pattern` is UriRegex::str() (the original pattern text, the lookup key). -/
structure TableEntry (T : Type) where
  pattern : String
  obj : HttpHandlerObject T
deriving DecidableEq

/-- The scan loop of HttpHandler::do_switch_http_handler
(src/HttpHandler.h lines 171-188): find the first entry whose pattern text
equals the normalized uri; -1 if already in the requested state, else flip
working_ and return 0; -2 when no entry matches. Returns (code, new table). -/
def switchScan {T : Type} (uri : String) (onFlag : Bool) :
    List (TableEntry T) → Int × List (TableEntry T)
  | [] => (-2, [])
  | e :: rest =>
    if e.pattern == uri then
      if e.obj.working_ == onFlag then (-1, e :: rest)
      else (0, { e with obj := { e.obj with working_ := onFlag } } :: rest)
    else
      let p := switchScan uri onFlag rest
      (p.1, e :: p.2)

/-- HttpHandler::do_switch_http_handler (src/HttpHandler.h lines 165-189).
`none` models the undefined behavior of pure_uri_path on inputs that trim to
the empty string. -/
def do_switch_http_handler {T : Type} (uri_r : String) (onFlag : Bool)
    (handlers : List (TableEntry T)) : Option (Int × List (TableEntry T)) :=
  (pure_uri_path uri_r).map (fun uri => switchScan uri onFlag handlers)

/-- The drain loop of HttpHandler::do_update_http_handler
(src/HttpHandler.h lines 213-218):
  int retry_count = 10;
  while (p_handler_object.use_count() > 2 && -- retry_count > 0) ::usleep(1000);
`counts i` is the value observed by the i-th use_count() call; the function
returns the index of the use_count() call performed by the `if` on line 220
right after the loop. With retry 0 or 1 the loop body exits after its poll
regardless of the observed value, so the next poll index is i + 1 either way. -/
def updateDrainLoop (counts : Nat → Nat) : Nat → Nat → Nat
  | i, 0 => i + 1
  | i, 1 => i + 1
  | i, r + 2 => if 2 < counts i then updateDrainLoop counts (i + 1) (r + 1) else i + 1

/-- Result of do_update_http_handler: either an integer code together with the
table left behind, or undefined behavior (`crash`). -/
inductive UpdateOutcome (T : Type) where
  | crash : UpdateOutcome T
  | ret : Int → List (TableEntry T) → UpdateOutcome T
deriving DecidableEq

/-- HttpHandler::do_update_http_handler (src/HttpHandler.h lines 192-240),
modelled exactly as written, including its defects:
* the for loop on line 201 declares a SECOND iterator `it` that shadows the
  outer `it` of line 200, so after the loop the outer `it` still equals
  handlers.begin(); the erase on line 230 therefore removes the FIRST table
  entry, not the located one (`handlers.drop 1`);
* when no entry matches, `p_handler_object` stays a null shared_ptr and line
  208 dereferences it (`p_handler_object->built_in_`): undefined behavior,
  modelled as `.crash`;
* no new handler is ever installed (the "install new handler" comment on line
  232 is followed by no code) and every surviving path falls through to
  `ret: return -2;`.
The `on` parameter is accepted and ignored, as in the source. -/
def do_update_http_handler {T : Type} (counts : Nat → Nat) (uri_r : String)
    (onFlag : Bool) (handlers : List (TableEntry T)) : UpdateOutcome T :=
  match pure_uri_path uri_r with
  | none => UpdateOutcome.crash
  | some uri =>
    match handlers.find? (fun e => e.pattern == uri) with
    | none => UpdateOutcome.crash
    | some e =>
      if e.obj.built_in_ then UpdateOutcome.ret (-1) handlers
      else if 2 < counts (updateDrainLoop counts 0 10) then UpdateOutcome.ret (-2) handlers
      else UpdateOutcome.ret (-2) (handlers.drop 1)

/-- Modelled from the spec: the bodies of HttpHandler::find_http_get_handler
and find_http_post_handler are not under src/ (only their declarations on
lines 111-112 are). Per the spec's dispatch description, find normalizes the
URI and scans the table in registration order, returning the first entry that
is enabled (working_) and whose compiled pattern accepts the normalized URI.
The boost::regex match relation is abstracted as the parameter `rmatch`
(pattern text, uri). The outer Option models pure_uri_path's undefined
behavior; the inner Option is found / not-found. -/
def find_http_handler {T : Type} (rmatch : String → String → Bool) (uri_r : String)
    (handlers : List (TableEntry T)) : Option (Option (HttpHandlerObject T)) :=
  (pure_uri_path uri_r).map (fun uri =>
    (handlers.find? (fun e => e.obj.working_ && rmatch e.pattern uri)).map TableEntry.obj)

/-- The two handler tables of the HttpHandler facade
(src/HttpHandler.h lines 141-142). -/
inductive TableKind where
  | get : TableKind
  | post : TableKind

/-- The table operations named by the spec's concurrency section. -/
inductive TableOp where
  | check_exist : TableOp
  | switch_handler : TableOp
  | update_handler : TableOp
  | find_handler : TableOp
  | register_handler : TableOp

/-- The lock members of class HttpHandler: the class declares exactly ONE
reader/writer lock, `boost::shared_mutex rwlock_` (src/HttpHandler.h line
138), shared by the GET and the POST table. -/
inductive LockId where
  | rwlock_ : LockId

/-- Which lock each table operation acquires. Every operation on either table
locks the single member rwlock_: do_check_exist_http_handler takes
shared_lock(rwlock_) (line 153), do_switch_http_handler and
do_update_http_handler take lock_guard(rwlock_) (lines 169, 198), for both
the GET and the POST table. find and register can only acquire the one lock
the class has. -/
def lockAcquired : TableOp → TableKind → LockId :=
  fun _ _ => LockId.rwlock_

/-- A concrete non-built-in table entry for pattern "/a" (handlers are
represented by Nat tags in concrete tables). -/
def entryA : TableEntry Nat :=
  { pattern := "/a", obj := mkHttpHandlerObject 1 false }

/-- A concrete non-built-in table entry for pattern "/b". -/
def entryB : TableEntry Nat :=
  { pattern := "/b", obj := mkHttpHandlerObject 2 false }

/-- A concrete built-in (immutable) table entry for the root pattern. -/
def entryRoot : TableEntry Nat :=
  { pattern := "/", obj := mkHttpHandlerObject 0 true }

/-- A concrete disabled entry for pattern "/foo". -/
def entryFooOff : TableEntry Nat :=
  { pattern := "/foo",
    obj := { built_in_ := false, success_cnt_ := 0, fail_cnt_ := 0,
             working_ := false, handler_ := 3 } }

/-- A concrete enabled entry for pattern "/foo". -/
def entryFooOn : TableEntry Nat :=
  { pattern := "/foo", obj := mkHttpHandlerObject 7 false }

/-- A second concrete enabled entry for pattern "/foo" (a later registration
competing with entryFooOn). -/
def entryFoo2 : TableEntry Nat :=
  { pattern := "/foo", obj := mkHttpHandlerObject 9 false }

/-! ## Helper lemmas -/

lemma toNat_ofNat_valid {n : Nat} (h : n.isValidChar) : (Char.ofNat n).toNat = n := by
  rw [Char.ofNat, dif_pos h]
  rfl

lemma toLower_toLower (c : Char) : c.toLower.toLower = c.toLower := by
  simp only [Char.toLower]
  by_cases h : c.toNat ≥ 65 ∧ c.toNat ≤ 90
  · rw [if_pos h]
    have hv : (c.toNat + 32).isValidChar := Or.inl (by omega)
    rw [toNat_ofNat_valid hv, if_neg (by omega)]
  · rw [if_neg h, if_neg h]

lemma dropWhile_head_false {α} (p : α → Bool) :
    ∀ (l : List α) c cs, l.dropWhile p = c :: cs → p c = false := by
  intro l
  induction l with
  | nil => intro c cs h; simp [List.dropWhile] at h
  | cons a as ih =>
    intro c cs h
    rw [List.dropWhile_cons] at h
    by_cases hp : p a = true
    · rw [if_pos hp] at h
      exact ih c cs h
    · rw [if_neg hp] at h
      injection h with h1 _
      subst h1
      cases hq : p a with
      | false => rfl
      | true => exact absurd hq hp

lemma dropWhile_eq_self_of_head {α} (p : α → Bool) (l : List α)
    (h : ∀ c cs, l = c :: cs → p c = false) : l.dropWhile p = l := by
  cases l with
  | nil => rfl
  | cons a as => rw [List.dropWhile_cons, if_neg (by simp [h a as rfl])]

lemma dropWhile_suffix_ex {α} (p : α → Bool) :
    ∀ l : List α, ∃ s, l = s ++ l.dropWhile p := by
  intro l
  induction l with
  | nil => exact ⟨[], rfl⟩
  | cons a as ih =>
    rw [List.dropWhile_cons]
    by_cases hp : p a = true
    · rw [if_pos hp]
      obtain ⟨s, hs⟩ := ih
      exact ⟨a :: s, by rw [List.cons_append, ← hs]⟩
    · rw [if_neg hp]
      exact ⟨[], rfl⟩

lemma stripRev_ne_nil : ∀ {l r : List Char}, stripRev l = some r → r ≠ [] := by
  intro l
  induction l with
  | nil => intro r h; simp [stripRev] at h
  | cons c rest ih =>
    intro r h
    cases rest with
    | nil =>
      simp only [stripRev, Option.some.injEq] at h
      subst h
      simp
    | cons c2 rest2 =>
      simp only [stripRev] at h
      by_cases hc : c = '/'
      · rw [if_pos hc] at h
        exact ih h
      · rw [if_neg hc] at h
        injection h with h1
        subst h1
        simp

lemma stripRev_suffix_ex : ∀ {l r : List Char}, stripRev l = some r → ∃ s, l = s ++ r := by
  intro l
  induction l with
  | nil => intro r h; simp [stripRev] at h
  | cons c rest ih =>
    intro r h
    cases rest with
    | nil =>
      simp only [stripRev, Option.some.injEq] at h
      exact ⟨[], by rw [h, List.nil_append]⟩
    | cons c2 rest2 =>
      simp only [stripRev] at h
      by_cases hc : c = '/'
      · rw [if_pos hc] at h
        obtain ⟨s, hs⟩ := ih h
        exact ⟨c :: s, by rw [List.cons_append, ← hs]⟩
      · rw [if_neg hc] at h
        injection h with h1
        exact ⟨[], by rw [h1, List.nil_append]⟩

lemma stripRev_self : ∀ {l r : List Char}, stripRev l = some r → stripRev r = some r := by
  intro l
  induction l with
  | nil => intro r h; simp [stripRev] at h
  | cons c rest ih =>
    intro r h
    cases rest with
    | nil =>
      simp only [stripRev, Option.some.injEq] at h
      subst h
      rfl
    | cons c2 rest2 =>
      simp only [stripRev] at h
      by_cases hc : c = '/'
      · rw [if_pos hc] at h
        exact ih h
      · rw [if_neg hc] at h
        injection h with h1
        subst h1
        simp only [stripRev]
        rw [if_neg hc]

lemma stripRev_isSome_of_ne_nil : ∀ {l : List Char}, l ≠ [] → ∃ r, stripRev l = some r := by
  intro l
  induction l with
  | nil => intro h; exact absurd rfl h
  | cons c rest ih =>
    intro _
    cases rest with
    | nil => exact ⟨[c], rfl⟩
    | cons c2 rest2 =>
      by_cases hc : c = '/'
      · obtain ⟨r, hr⟩ := ih (by simp)
        exact ⟨r, by simp only [stripRev]; rw [if_pos hc]; exact hr⟩
      · exact ⟨c :: c2 :: rest2, by simp only [stripRev]; rw [if_neg hc]⟩

lemma map_eq_self_of_fixed {α} {f : α → α} :
    ∀ {l : List α}, (∀ c ∈ l, f c = c) → l.map f = l := by
  intro l
  induction l with
  | nil => intro _; rfl
  | cons a as ih =>
    intro h
    rw [List.map_cons, h a (by simp), ih (fun c hc => h c (by simp [hc]))]

lemma find?_append_of_none {α} {p : α → Bool} {l₁ : List α} (h : l₁.find? p = none)
    (l₂ : List α) : (l₁ ++ l₂).find? p = l₂.find? p := by
  induction l₁ with
  | nil => rfl
  | cons a as ih =>
    by_cases hp : p a = true
    · rw [List.find?_cons_of_pos _ hp] at h
      exact absurd h (by simp)
    · rw [List.find?_cons_of_neg _ hp] at h
      rw [List.cons_append, List.find?_cons_of_neg _ hp]
      exact ih h

lemma pure_uri_path_some {x y : String} (h : pure_uri_path x = some y) :
    ∃ r, stripRev (trimCopy (x.data.map Char.toLower)).reverse = some r ∧
      y = String.mk r.reverse := by
  simp only [pure_uri_path] at h
  cases hs : stripRev (trimCopy (x.data.map Char.toLower)).reverse with
  | none => rw [hs] at h; simp at h
  | some r =>
    rw [hs] at h
    simp only [Option.map_some', Option.some.injEq] at h
    exact ⟨r, rfl, h.symm⟩

/-- The characters of the result of pure_uri_path all come from the lowercased
input, so a second lowercasing is the identity on them. -/
lemma pure_uri_path_chars_lower {x y : String} (h : pure_uri_path x = some y) :
    y.data.map Char.toLower = y.data := by
  obtain ⟨r, hr, hy⟩ := pure_uri_path_some h
  apply map_eq_self_of_fixed
  intro c hc
  have hc1 : c ∈ r := by
    rw [hy] at hc
    exact List.mem_reverse.mp hc
  obtain ⟨s1, hs1⟩ := stripRev_suffix_ex hr
  have hc2 : c ∈ (trimCopy (x.data.map Char.toLower)).reverse := by
    rw [hs1]; exact List.mem_append_right _ hc1
  have hc3 : c ∈ trimCopy (x.data.map Char.toLower) := List.mem_reverse.mp hc2
  have hc4 : c ∈ x.data.map Char.toLower := by
    simp only [trimCopy] at hc3
    have hc3' := List.mem_reverse.mp hc3
    obtain ⟨s2, hs2⟩ :=
      dropWhile_suffix_ex isSpaceChar ((x.data.map Char.toLower).dropWhile isSpaceChar).reverse
    have hc5 : c ∈ ((x.data.map Char.toLower).dropWhile isSpaceChar).reverse := by
      rw [hs2]; exact List.mem_append_right _ hc3'
    have hc6 := List.mem_reverse.mp hc5
    obtain ⟨s0, hs0⟩ := dropWhile_suffix_ex isSpaceChar (x.data.map Char.toLower)
    rw [hs0]; exact List.mem_append_right _ hc6
  obtain ⟨c0, _, hc0⟩ := List.mem_map.mp hc4
  rw [← hc0]
  exact toLower_toLower c0

/-- The result of pure_uri_path never starts with a whitespace character: its
first character is the first character of the trimmed input. -/
lemma pure_uri_path_head_not_space {x y : String} (h : pure_uri_path x = some y) :
    ∀ c cs, y.data = c :: cs → isSpaceChar c = false := by
  obtain ⟨r, hr, hy⟩ := pure_uri_path_some h
  intro c cs hcons
  obtain ⟨s1, hs1⟩ := stripRev_suffix_ex hr
  -- (trimCopy m).reverse = s1 ++ r, and trimCopy m reversed is the
  -- back-trimmed front-trimmed input
  have htrev : (trimCopy (x.data.map Char.toLower)).reverse =
      ((x.data.map Char.toLower).dropWhile isSpaceChar).reverse.dropWhile isSpaceChar := by
    simp [trimCopy]
  obtain ⟨s2, hs2⟩ :=
    dropWhile_suffix_ex isSpaceChar ((x.data.map Char.toLower).dropWhile isSpaceChar).reverse
  have hd : (x.data.map Char.toLower).dropWhile isSpaceChar = y.data ++ (s2 ++ s1).reverse := by
    have h1 : ((x.data.map Char.toLower).dropWhile isSpaceChar).reverse = s2 ++ (s1 ++ r) := by
      rw [hs2, htrev.symm, hs1]
    have h2 := congrArg List.reverse h1
    rw [List.reverse_reverse] at h2
    rw [h2, hy]
    simp [List.reverse_append]
  rw [hcons] at hd
  exact dropWhile_head_false isSpaceChar (x.data.map Char.toLower) c _ hd

/-- pure_uri_path is idempotent on every result whose final character is not
whitespace. -/
lemma pure_uri_path_idem {x y : String} (h : pure_uri_path x = some y)
    (hlast : ∀ c cs, y.data.reverse = c :: cs → isSpaceChar c = false) :
    pure_uri_path y = some y := by
  obtain ⟨r, hr, hy⟩ := pure_uri_path_some h
  have hydata : y.data = r.reverse := by rw [hy]
  have htrim : trimCopy y.data = y.data := by
    simp only [trimCopy]
    rw [dropWhile_eq_self_of_head isSpaceChar y.data (pure_uri_path_head_not_space h),
        dropWhile_eq_self_of_head isSpaceChar y.data.reverse hlast,
        List.reverse_reverse]
  simp only [pure_uri_path]
  rw [pure_uri_path_chars_lower h, htrim, hydata, List.reverse_reverse,
      stripRev_self hr]
  simp [hy, hydata]

lemma pure_uri_path_ne_empty {x y : String} (h : pure_uri_path x = some y) : y ≠ "" := by
  obtain ⟨r, hr, hy⟩ := pure_uri_path_some h
  have hrne := stripRev_ne_nil hr
  intro hcontra
  rw [hcontra] at hy
  have : r.reverse = ([] : List Char) := (congrArg String.data hy).symm
  exact hrne (by simpa using this)

lemma switchScan_append {T : Type} (uri : String) (onFlag : Bool)
    (pre rest : List (TableEntry T)) (hpre : ∀ e' ∈ pre, e'.pattern ≠ uri) :
    switchScan uri onFlag (pre ++ rest) =
      ((switchScan uri onFlag rest).1, pre ++ (switchScan uri onFlag rest).2) := by
  induction pre with
  | nil => simp
  | cons a as ih =>
    have ha : (a.pattern == uri) = false := beq_eq_false_iff_ne.mpr (hpre a (by simp))
    rw [List.cons_append]
    simp only [switchScan, ha]
    rw [ih (fun e' he' => hpre e' (by simp [he']))]
    simp

lemma switchScan_cons_off {T : Type} (uri : String) (e : TableEntry T)
    (post : List (TableEntry T)) (hpat : e.pattern = uri) (hoff : e.obj.working_ = false) :
    switchScan uri true (e :: post) =
      (0, { e with obj := { e.obj with working_ := true } } :: post) := by
  simp [switchScan, hpat, hoff]

lemma switchScan_cons_on {T : Type} (uri : String) (e : TableEntry T)
    (post : List (TableEntry T)) (hpat : e.pattern = uri) (hon : e.obj.working_ = true) :
    switchScan uri true (e :: post) = (-1, e :: post) := by
  simp [switchScan, hpat, hon]

lemma updateDrainLoop_busy10 (counts : Nat → Nat) (hb : ∀ j, j ≤ 10 → 2 < counts j) :
    updateDrainLoop counts 0 10 = 10 := by
  norm_num [updateDrainLoop, hb 0 (by norm_num), hb 1 (by norm_num), hb 2 (by norm_num),
    hb 3 (by norm_num), hb 4 (by norm_num), hb 5 (by norm_num), hb 6 (by norm_num),
    hb 7 (by norm_num), hb 8 (by norm_num)]

/-! ## Claim theorems -/

/-- C1: the spec says a drained, non-immutable record is removed, the new
handler is installed at the same position, and Ok (0) is returned. The code
does none of this: replacing "/b" in the table [entryA("/a"), entryB("/b")]
with the located object fully drained (every use_count() poll returns the
quiescent minimum 2) erases the FIRST entry "/a" (the erase on line 230 uses
the outer iterator left at begin() by the shadowing bug on line 201), installs
nothing, and returns -2, not Ok. -/
theorem tz_C1_eval :
    do_update_http_handler (fun _ => 2) "/b" true [entryA, entryB] =
      UpdateOutcome.ret (-2) [entryB] := by
  rfl

/-- C2: the spec says replace on an absent pattern returns NotFound as an
explicit result value with no uncontrolled failure. In the code, when no entry
matches, p_handler_object remains a null shared_ptr and line 208 dereferences
it (p_handler_object->built_in_) before the null check on line 214: undefined
behavior, modelled as crash, on the concrete input "/nothere" against the
table [entryA]. -/
theorem tz_C2_eval :
    do_update_http_handler (fun _ => 2) "/nothere" true [entryA] = UpdateOutcome.crash := by
  rfl

/-- C3: if the first record matching the normalized pattern is non-immutable
and every use_count() poll within the retry budget observes a value above the
quiescent minimum 2, do_update_http_handler returns Busy (-2) and leaves the
table unchanged, so the old entry is still installed at its original position. -/
theorem tz_C3 {T : Type} (counts : Nat → Nat) (onFlag : Bool) (uri_r uri : String)
    (hs : List (TableEntry T)) (e : TableEntry T)
    (hn : pure_uri_path uri_r = some uri)
    (hfind : hs.find? (fun x => x.pattern == uri) = some e)
    (hni : e.obj.built_in_ = false)
    (hbusy : ∀ i, i ≤ 10 → 2 < counts i) :
    do_update_http_handler counts uri_r onFlag hs = UpdateOutcome.ret (-2) hs := by
  simp only [do_update_http_handler, hn, hfind, hni, Bool.false_eq_true, if_false]
  rw [updateDrainLoop_busy10 counts hbusy, if_pos (hbusy 10 (by norm_num))]

/-- C3 witness: a one-entry table whose record never drains (every poll sees
use_count 3) yields Busy (-2) with the table unchanged. -/
theorem tz_C3_witness :
    (pure_uri_path "/a" = some "/a") ∧
    ([entryA].find? (fun x => x.pattern == "/a") = some entryA) ∧
    (entryA.obj.built_in_ = false) ∧
    (∀ i, i ≤ 10 → 2 < (fun _ => 3 : Nat → Nat) i) ∧
    do_update_http_handler (fun _ => 3) "/a" true [entryA] = UpdateOutcome.ret (-2) [entryA] :=
  ⟨by decide, by decide, by decide, fun _ _ => (by decide : (2 : Nat) < 3),
    tz_C3 (fun _ => 3) true "/a" "/a" [entryA] entryA (by decide) (by decide) (by decide)
      (fun _ _ => (by decide : (2 : Nat) < 3))⟩

/-- C4 (amended): pure_uri_path is idempotent on every input whose normalized
form does not end in a whitespace character (stripping trailing slashes can
expose trailing whitespace that a second normalization would trim away); the
spec's concrete examples hold, and the result is never the empty string. -/
theorem tz_C4 :
    (∀ x y : String, pure_uri_path x = some y →
      y.data.getLast?.all (fun c => ! isSpaceChar c) = true →
      pure_uri_path y = some y)
    ∧ pure_uri_path "/Foo/" = some "/foo"
    ∧ pure_uri_path "/foo" = some "/foo"
    ∧ pure_uri_path "/" = some "/"
    ∧ (∀ x y : String, pure_uri_path x = some y → y ≠ "") := by
  refine ⟨?_, by decide, by decide, by decide, fun x y h => pure_uri_path_ne_empty h⟩
  intro x y h hlast
  apply pure_uri_path_idem h
  intro c cs hrev
  have hc : y.data.getLast? = some c := by
    rw [List.getLast?_eq_head?_reverse, hrev]
    rfl
  rw [hc] at hlast
  simpa using hlast

/-- C4 counterexample: normalization is NOT idempotent for every input, as the
claim states. On "/a /" the trailing-slash strip exposes a trailing space, so
normalize("/a /") = "/a " while normalize("/a ") = "/a". -/
theorem tz_C4_cex :
    pure_uri_path "/a /" = some "/a " ∧ pure_uri_path "/a " = some "/a" ∧
      ¬((pure_uri_path "/a /").bind pure_uri_path = pure_uri_path "/a /") := by
  exact ⟨by decide, by decide, by decide⟩

/-- C4 witness: the amended idempotence applied at "/Foo/", whose normalized
form "/foo" does not end in whitespace. -/
theorem tz_C4_witness :
    pure_uri_path "/Foo/" = some "/foo" ∧
    ("/foo".data.getLast?.all (fun c => ! isSpaceChar c) = true) ∧
    pure_uri_path "/foo" = some "/foo" :=
  ⟨by decide, by decide, tz_C4.1 "/Foo/" "/foo" (by decide) (by decide)⟩

/-- C5: find tests entries in registration order and returns the first enabled
entry whose matcher accepts the normalized URI; the result is unchanged by
unrelated later registrations (extra), and a disabled entry is never returned. -/
theorem tz_C5 {T : Type} (rmatch : String → String → Bool) (uri_r uri : String)
    (pre post extra : List (TableEntry T)) (e : TableEntry T)
    (hn : pure_uri_path uri_r = some uri)
    (hpre : ∀ e' ∈ pre, ¬(e'.obj.working_ = true ∧ rmatch e'.pattern uri = true))
    (hw : e.obj.working_ = true) (hm : rmatch e.pattern uri = true) :
    find_http_handler rmatch uri_r (pre ++ e :: post) = some (some e.obj) ∧
    find_http_handler rmatch uri_r (pre ++ e :: (post ++ extra)) = some (some e.obj) ∧
    (∀ (hs : List (TableEntry T)) (o : HttpHandlerObject T),
      find_http_handler rmatch uri_r hs = some (some o) → o.working_ = true) := by
  have hq : ∀ l : List (TableEntry T),
      ((pre ++ e :: l).find? (fun e' => e'.obj.working_ && rmatch e'.pattern uri)) = some e := by
    intro l
    have hpre' : pre.find? (fun e' => e'.obj.working_ && rmatch e'.pattern uri) = none := by
      rw [List.find?_eq_none]
      intro a ha hcontra
      rw [Bool.and_eq_true] at hcontra
      exact hpre a ha ⟨hcontra.1, hcontra.2⟩
    rw [find?_append_of_none hpre']
    exact List.find?_cons_of_pos _ (by rw [Bool.and_eq_true]; exact ⟨hw, hm⟩)
  refine ⟨?_, ?_, ?_⟩
  · simp only [find_http_handler, hn, Option.map_some', hq post]
  · simp only [find_http_handler, hn, Option.map_some', hq (post ++ extra)]
  · intro hs o hfind
    simp only [find_http_handler, hn, Option.map_some', Option.some.injEq] at hfind
    cases hfq : hs.find? (fun e' => e'.obj.working_ && rmatch e'.pattern uri) with
    | none => rw [hfq] at hfind; simp at hfind
    | some a =>
      rw [hfq] at hfind
      simp only [Option.map_some', Option.some.injEq] at hfind
      have ha := List.find?_some hfq
      rw [Bool.and_eq_true] at ha
      rw [← hfind]
      exact ha.1

/-- C5 witness: with text equality as the matcher, the URI "/Foo/" (normalized
"/foo") skips the earlier DISABLED "/foo" entry, returns the first enabled
one, and is unaffected by a later competing registration. -/
theorem tz_C5_witness :
    (pure_uri_path "/Foo/" = some "/foo") ∧
    (∀ e' ∈ [entryFooOff],
      ¬(e'.obj.working_ = true ∧ (fun p u => p == u) e'.pattern "/foo" = true)) ∧
    (entryFooOn.obj.working_ = true) ∧
    ((fun p u => p == u) entryFooOn.pattern "/foo" = true) ∧
    find_http_handler (fun p u => p == u) "/Foo/" [entryFooOff, entryFooOn] =
      some (some entryFooOn.obj) ∧
    find_http_handler (fun p u => p == u) "/Foo/" [entryFooOff, entryFooOn, entryFoo2] =
      some (some entryFooOn.obj) := by
  refine ⟨by decide, by decide, by decide, by decide, ?_, ?_⟩
  · exact (tz_C5 (fun p u => p == u) "/Foo/" "/foo" [entryFooOff] [] [entryFoo2] entryFooOn
      (by decide) (by decide) (by decide) (by decide)).1
  · exact (tz_C5 (fun p u => p == u) "/Foo/" "/foo" [entryFooOff] [] [entryFoo2] entryFooOn
      (by decide) (by decide) (by decide) (by decide)).2.1

/-- C6: switching a disabled record on returns Ok (0) and flips only its
working_ flag; an immediately repeated switch-on returns AlreadyInState (-1)
and leaves the whole table unchanged. -/
theorem tz_C6 {T : Type} (uri_r uri : String) (pre post : List (TableEntry T))
    (e : TableEntry T)
    (hn : pure_uri_path uri_r = some uri)
    (hpre : ∀ e' ∈ pre, e'.pattern ≠ uri)
    (hpat : e.pattern = uri) (hoff : e.obj.working_ = false) :
    do_switch_http_handler uri_r true (pre ++ e :: post) =
      some (0, pre ++ { e with obj := { e.obj with working_ := true } } :: post) ∧
    do_switch_http_handler uri_r true
        (pre ++ { e with obj := { e.obj with working_ := true } } :: post) =
      some (-1, pre ++ { e with obj := { e.obj with working_ := true } } :: post) := by
  constructor
  · simp only [do_switch_http_handler, hn, Option.map_some']
    rw [switchScan_append uri true pre (e :: post) hpre,
        switchScan_cons_off uri e post hpat hoff]
  · simp only [do_switch_http_handler, hn, Option.map_some']
    rw [switchScan_append uri true pre _ hpre,
        switchScan_cons_on uri { e with obj := { e.obj with working_ := true } } post
          hpat rfl]

/-- C6 witness: enabling the disabled "/foo" entry behind an unrelated "/a"
entry returns Ok and flips it; repeating returns AlreadyInState with the table
unchanged. -/
theorem tz_C6_witness :
    (pure_uri_path "/Foo/" = some "/foo") ∧
    (∀ e' ∈ [entryA], e'.pattern ≠ "/foo") ∧
    (entryFooOff.pattern = "/foo") ∧
    (entryFooOff.obj.working_ = false) ∧
    (do_switch_http_handler "/Foo/" true [entryA, entryFooOff] =
      some (0, [entryA, { entryFooOff with
        obj := { entryFooOff.obj with working_ := true } }])) ∧
    (do_switch_http_handler "/Foo/" true
        [entryA, { entryFooOff with obj := { entryFooOff.obj with working_ := true } }] =
      some (-1, [entryA, { entryFooOff with
        obj := { entryFooOff.obj with working_ := true } }])) := by
  refine ⟨by decide, by decide, by decide, by decide, ?_, ?_⟩
  · exact (tz_C6 "/Foo/" "/foo" [entryA] [] entryFooOff
      (by decide) (by decide) (by decide) (by decide)).1
  · exact (tz_C6 "/Foo/" "/foo" [entryA] [] entryFooOff
      (by decide) (by decide) (by decide) (by decide)).2

/-- C7: replace on a record whose first pattern match is built_in returns
Immutable (-1) with the table unchanged, for EVERY use-count observation
sequence (the result does not depend on counts: no drain is attempted). -/
theorem tz_C7 {T : Type} (uri_r uri : String) (hs : List (TableEntry T)) (e : TableEntry T)
    (hn : pure_uri_path uri_r = some uri)
    (hfind : hs.find? (fun x => x.pattern == uri) = some e)
    (hbi : e.obj.built_in_ = true) :
    ∀ (counts : Nat → Nat) (onFlag : Bool),
      do_update_http_handler counts uri_r onFlag hs = UpdateOutcome.ret (-1) hs := by
  intro counts onFlag
  simp only [do_update_http_handler, hn, hfind, hbi, if_true]

/-- C7 witness: replacing the built-in root entry returns Immutable (-1) and
leaves the one-entry table as it was, for an arbitrary concrete count
sequence. -/
theorem tz_C7_witness :
    (pure_uri_path "/" = some "/") ∧
    ([entryRoot].find? (fun x => x.pattern == "/") = some entryRoot) ∧
    (entryRoot.obj.built_in_ = true) ∧
    do_update_http_handler (fun _ => 99) "/" false [entryRoot] =
      UpdateOutcome.ret (-1) [entryRoot] :=
  ⟨by decide, by decide, by decide,
    tz_C7 "/" "/" [entryRoot] entryRoot (by decide) (by decide) (by decide) (fun _ => 99) false⟩

/-- C8 counterexample: the claim says the GET table and the POST table are
guarded by their own, independent reader/writer locks, so GET operations never
block POST operations. The class declares exactly one lock
(boost::shared_mutex rwlock_, line 138): a GET-table mutation (switch) and a
POST-table lookup (find) acquire the SAME lock. -/
theorem tz_C8_cex :
    lockAcquired TableOp.switch_handler TableKind.get =
      lockAcquired TableOp.find_handler TableKind.post := rfl

/-- C8 (amended): every operation on either table acquires the one shared
reader/writer lock rwlock_, so GET-table and POST-table operations are
serialized by the same lock and CAN block each other. -/
theorem tz_C8_amended :
    ∀ (op op' : TableOp) (k k' : TableKind), lockAcquired op k = lockAcquired op' k' :=
  fun _ _ _ _ => rfl

/-- C9: a newly constructed handler record starts enabled with zero counters,
and switching a freshly registered pattern on is the AlreadyInState (-1)
no-op case, leaving the table unchanged. -/
theorem tz_C9 {T : Type} (t : T) (b : Bool) (uri_r uri : String)
    (pre post : List (TableEntry T))
    (hn : pure_uri_path uri_r = some uri)
    (hpre : ∀ e' ∈ pre, e'.pattern ≠ uri) :
    (mkHttpHandlerObject t b).working_ = true ∧
    (mkHttpHandlerObject t b).success_cnt_ = 0 ∧
    (mkHttpHandlerObject t b).fail_cnt_ = 0 ∧
    do_switch_http_handler uri_r true
        (pre ++ { pattern := uri, obj := mkHttpHandlerObject t b } :: post) =
      some (-1, pre ++ { pattern := uri, obj := mkHttpHandlerObject t b } :: post) := by
  refine ⟨rfl, rfl, rfl, ?_⟩
  simp only [do_switch_http_handler, hn, Option.map_some']
  rw [switchScan_append uri true pre _ hpre,
      switchScan_cons_on uri { pattern := uri, obj := mkHttpHandlerObject t b } post rfl rfl]

/-- C9 witness: a freshly constructed record for "/new" is enabled with zero
counters, and switch-on returns AlreadyInState. -/
theorem tz_C9_witness :
    (pure_uri_path "/New/" = some "/new") ∧
    (∀ e' ∈ ([] : List (TableEntry Nat)), e'.pattern ≠ "/new") ∧
    ((mkHttpHandlerObject (5 : Nat) false).working_ = true ∧
     (mkHttpHandlerObject (5 : Nat) false).success_cnt_ = 0 ∧
     (mkHttpHandlerObject (5 : Nat) false).fail_cnt_ = 0 ∧
     do_switch_http_handler "/New/" true
         [{ pattern := "/new", obj := mkHttpHandlerObject (5 : Nat) false }] =
       some (-1, [{ pattern := "/new", obj := mkHttpHandlerObject (5 : Nat) false }])) :=
  ⟨by decide, by decide,
    tz_C9 (5 : Nat) false "/New/" "/new" [] [] (by decide) (by decide)⟩

/-- C10: the claim says the access uri[uri.size()-1] in pure_uri_path's loop
condition is in bounds for EVERY input, including the empty string and
all-whitespace strings. It is not: on "" (and on " ", which trims to empty)
the index uri.size()-1 underflows and the read is out of bounds (none);
for every input whose trimmed lowercase form is nonempty the function does
return a value. -/
theorem tz_C10_eval :
    pure_uri_path "" = none ∧ pure_uri_path " " = none ∧
    (∀ x : String, trimCopy (x.data.map Char.toLower) ≠ [] →
      ∃ y, pure_uri_path x = some y) := by
  refine ⟨by decide, by decide, ?_⟩
  intro x hx
  have hrev : (trimCopy (x.data.map Char.toLower)).reverse ≠ [] := by
    simpa using hx
  obtain ⟨r, hr⟩ := stripRev_isSome_of_ne_nil hrev
  refine ⟨String.mk r.reverse, ?_⟩
  simp only [pure_uri_path]
  rw [hr]
  rfl

/-- C10 witness: on "/abc" the trimmed form is nonempty and pure_uri_path
returns a value. -/
theorem tz_C10_witness :
    (trimCopy ("/abc".data.map Char.toLower) ≠ []) ∧
    (∃ y, pure_uri_path "/abc" = some y) :=
  ⟨by decide, tz_C10_eval.2.2 "/abc" (by decide)⟩

end tzhttpd
